import Mathlib

/-
Verification of the two release-pipeline scripts of pvp-template-dart:
scripts/sync_version.py (Version Sync) and scripts/create_version_tag.py
(Tag Creator).  File contents are modelled as List Char; the Python regex
operations used by sync_version.py on the pattern (in Python notation)
r-multiline "caret version: backslash-s star (dot plus) dollar" are embedded
exactly, including the multiline anchors and the fact that backslash-s can
cross newlines when the remainder of a version line is pure whitespace.
-/

namespace PvpTemplate

/-- Python whitespace test: the characters matched by the regex class
backslash-s on str patterns, which is also the set stripped by str.strip().
Covers the ASCII whitespace range 9-13, the separators 28-31, space,
NEL (133), NBSP (160) and the Unicode space separators. -/
def isPySpace (c : Char) : Bool :=
  let n := c.toNat
  (9 ≤ n && n ≤ 13) || (28 ≤ n && n ≤ 31) || n == 32 || n == 133 || n == 160 ||
  n == 0x1680 || (0x2000 ≤ n && n ≤ 0x200A) || n == 0x2028 || n == 0x2029 ||
  n == 0x202F || n == 0x205F || n == 0x3000

/-- Model of Python str.strip(): remove leading and trailing whitespace. -/
def pyStrip (l : List Char) : List Char :=
  ((l.dropWhile isPySpace).reverse.dropWhile isPySpace).reverse

/-- Predicate used for the regex atom "dot": any character other than a
newline (the scripts never pass re.DOTALL). -/
def notNL (c : Char) : Bool := !(c == '\n')

/-- Remove a literal pattern from the front of a string, returning the
remainder when the pattern is a prefix. -/
def stripPre : List Char → List Char → Option (List Char)
  | [], s => some s
  | _ :: _, [] => none
  | p :: ps, c :: cs => if p = c then stripPre ps cs else none

/-- The literal characters of the regex prefix "version:". -/
def verKey : List Char := ['v', 'e', 'r', 's', 'i', 'o', 'n', ':']

/-- Strip the literal "version:" from the front of a string. -/
def stripVersionKey (s : List Char) : Option (List Char) :=
  stripPre verKey s

/-- Attempt of the regex (multiline) "caret version: backslash-s star
(dot plus) dollar" at a line-start position of the text.  Returns the
captured group 1 and the text after the end of the whole match.  Greedy
backtracking semantics of Python re:

- after the literal, backslash-s star first takes the maximal whitespace
  run W (which may cross newlines);
- if a non-whitespace character follows W, group 1 is the run of
  non-newline characters from there, and dollar holds after it;
- otherwise the text after the literal is pure whitespace to the end;
  the engine backtracks so that group 1 becomes the last character that
  is not a newline (if any), and the match ends before the trailing
  newlines. -/
def matchVersionAt (s : List Char) : Option (List Char × List Char) :=
  match stripVersionKey s with
  | none => none
  | some t =>
    match t.dropWhile isPySpace with
    | [] =>
      match t.reverse.dropWhile (fun c => c == '\n') with
      | [] => none
      | c :: _ => some ([c], (t.reverse.takeWhile (fun c => c == '\n')).reverse)
    | x :: xs => some ((x :: xs).takeWhile notNL, (x :: xs).dropWhile notNL)

/-- Fuel-driven scan over line starts implementing re.search for the
version pattern: try the pattern at the current line start, else skip to
just after the next newline.  The caret anchor rules out every other
position. -/
def searchAux : Nat → List Char → Option (List Char)
  | 0, _ => none
  | fuel + 1, s =>
    match matchVersionAt s with
    | some (g, _) => some g
    | none =>
      match s.dropWhile notNL with
      | [] => none
      | _ :: t => searchAux fuel t

/-- Model of re.search of the version pattern in multiline mode over the
whole text: the captured group of the first match, if any
(sync_version.py line 42). -/
def searchVersion (s : List Char) : Option (List Char) :=
  searchAux (s.length + 1) s

/-- Fuel-driven scan implementing re.sub for the version pattern: at each
line start, if the pattern matches, emit the replacement and continue
after the match; otherwise copy the line and its newline.  Every
non-overlapping match is replaced because sync_version.py passes no count
to re.sub. -/
def subAux (repl : List Char) : Nat → List Char → List Char
  | 0, s => s
  | fuel + 1, s =>
    match matchVersionAt s with
    | some (_, rest) =>
      repl ++ (match rest with
               | [] => []
               | c :: t => c :: subAux repl fuel t)
    | none =>
      match s.dropWhile notNL with
      | [] => s
      | c :: t => s.takeWhile notNL ++ c :: subAux repl fuel t

/-- Model of re.sub of the version pattern in multiline mode, replacing
every match (sync_version.py lines 57-62).  The replacement template is
interpreted literally, which is faithful whenever the interpolated
version contains no backslash (re.sub template escapes are not used by
versions of the usual shape). -/
def subVersionAll (repl : List Char) (s : List Char) : List Char :=
  subAux repl (s.length + 1) s

namespace SyncVersion

/-- Possible completions of the try-body of sync_version.py main.  Each
constructor records the last status line printed on that path; updated
also records the new descriptor content written to pubspec.yaml. -/
inductive Outcome where
  | noManifestVersion
  | noPubspecVersion
  | inSync
  | updated (newContent : List Char)
deriving DecidableEq

/-- Replacement string built by main: the f-string "version: " followed by
the manifest version (sync_version.py line 59). -/
def versionRepl (v : List Char) : List Char := "version: ".data ++ v

/-- The try-body of sync_version.py main (lines 27-70), with the results
of the two file reads passed in as values: the version field of the
parsed manifest (none when the key is absent) and the text of
pubspec.yaml.  Mirrors the source: missing manifest version reports and
succeeds; missing version line in the descriptor reports and succeeds;
equal versions (after stripping group 1) are a no-op; otherwise the
descriptor is rewritten with re.sub and staged. -/
def main (manifestVersion : Option (List Char)) (pubspecContent : List Char) :
    Outcome :=
  match manifestVersion with
  | none => .noManifestVersion
  | some mv =>
    match searchVersion pubspecContent with
    | none => .noPubspecVersion
    | some g =>
      if pyStrip g = mv then .inSync
      else .updated (subVersionAll (versionRepl mv) pubspecContent)

/-- Content written back to pubspec.yaml on each path: only the updated
path performs a write (sync_version.py lines 64-65). -/
def writesFile : Outcome → Option (List Char)
  | .updated c => some c
  | _ => none

/-- Whether the path runs the staging command git add pubspec.yaml: only
the updated path does (sync_version.py line 68). -/
def stagesPubspec : Outcome → Bool
  | .updated _ => true
  | _ => false

/-- Value returned by the try-body: every return statement inside the try
block of main returns 0. -/
def returnCode : Outcome → Nat := fun _ => 0

/-- Final status line printed by each path of the try-body. -/
def message : Outcome → List Char
  | .noManifestVersion => "[!] No version found in manifest.json".data
  | .noPubspecVersion => "[!] No version found in pubspec.yaml".data
  | .inSync => "[OK] Versions already in sync".data
  | .updated _ => "[OK] pubspec.yaml updated and staged".data

/-- Top-level exception handler of sync_version.py main (lines 73-75):
the body either completes with an outcome or raises an exception carrying
a message.  On completion the process exit code is 0 and nothing goes to
stderr; on an exception the error line is printed to stderr and the exit
code is 1. -/
def run (body : Except (List Char) Outcome) : Nat × Option (List Char) :=
  match body with
  | .ok o => (returnCode o, none)
  | .error e => (1, some ("[ERROR] Error syncing version: ".data ++ e))

end SyncVersion

namespace CreateVersionTag

/-- Results of the git subprocess invocations of create_version_tag.py,
passed in as values: each query field holds the raw standard output and
the return code of the corresponding command.  revParse is keyed by the
argument given to git rev-parse; pushResult holds the return code and the
captured standard error of git push origin tag. -/
structure GitWorld where
  branchQuery : List Char × Int
  revParse : List Char → List Char × Int
  diffQuery : List Char × Int
  pushResult : Int × List Char

/-- Model of exec_command (create_version_tag.py lines 22-31): run the
command and return its standard output stripped of surrounding
whitespace, together with its return code. -/
def exec_command (result : List Char × Int) : List Char × Int :=
  (pyStrip result.1, result.2)

/-- Model of tag_exists (lines 34-37): the tag name exists when git
rev-parse of it returns 0. -/
def tag_exists (w : GitWorld) (tag : List Char) : Bool :=
  (exec_command (w.revParse tag)).2 == 0

/-- The stripped standard output of git rev-parse --abbrev-ref HEAD
(line 54); the return code of the query is discarded by the source. -/
def current_branch (w : GitWorld) : List Char :=
  (exec_command w.branchQuery).1

/-- The changed-file list (lines 66-67): the stripped output of git diff
--name-only HEAD~1 HEAD split on newlines, or the empty list when that
output is empty; the return code of the query is discarded by the
source. -/
def changed_files_list (w : GitWorld) : List (List Char) :=
  let changed := (exec_command w.diffQuery).1
  if changed = [] then [] else changed.splitOn '\n'

/-- Whether any changed path is manifest.json or pubspec.yaml
(lines 69-72). -/
def has_version_changes (w : GitWorld) : Bool :=
  (changed_files_list w).any
    (fun f => f == "manifest.json".data || f == "pubspec.yaml".data)

/-- Possible completions of the try-body of create_version_tag.py main:
the four informational skips and the creation path, which records the tag
name and the return code of the push. -/
inductive Outcome where
  | noVersion
  | notMainBranch (branch : List Char)
  | tagAlreadyExists (tag : List Char)
  | noVersionChanges
  | created (tag : List Char) (pushReturn : Int)
deriving DecidableEq

/-- The try-body of create_version_tag.py main (lines 42-103), with the
manifest read passed in as a value (the version field, none when the key
is absent) and the git world supplying each subprocess result.  Mirrors
the source gate sequence: version present, branch in (main, master), tag
not existing, manifest.json or pubspec.yaml among the changed files; then
the annotated tag is created and pushed. -/
def main (manifestVersion : Option (List Char)) (w : GitWorld) : Outcome :=
  match manifestVersion with
  | none => .noVersion
  | some version =>
    let tag := 'v' :: version
    if !(current_branch w == "main".data || current_branch w == "master".data)
    then .notMainBranch (current_branch w)
    else if tag_exists w tag then .tagAlreadyExists tag
    else if !has_version_changes w then .noVersionChanges
    else .created tag w.pushResult.1

/-- The tag created by git tag -a on each path: only the created path
issues the tag-creation command (lines 81-84). -/
def tagCreated : Outcome → Option (List Char)
  | .created t _ => some t
  | _ => none

/-- Whether the path issues the push command git push origin tag: only
the created path does (lines 90-94). -/
def pushAttempted : Outcome → Bool
  | .created _ _ => true
  | _ => false

/-- Value returned by the try-body: every return statement inside the try
block of main returns 0, the push return code notwithstanding
(line 103). -/
def returnCode : Outcome → Nat := fun _ => 0

/-- Lines printed after the push attempt (lines 96-101): on success the
two success lines, on failure the remote error report and the suggested
manual-recovery command. -/
def pushReport (tag : List Char) (ret : Int) (errText : List Char) :
    List (List Char) :=
  if ret == 0 then
    ["[OK] Tag ".data ++ tag ++ " pushed successfully".data,
     "[INFO] GitHub Action will now build and create release".data]
  else
    ["[!] Failed to push tag: ".data ++ errText,
     "    You can manually push with: git push origin ".data ++ tag]

/-- Top-level exception handler of create_version_tag.py main
(lines 105-107): on completion the process exit code is 0; on an
exception the error line goes to stderr and the exit code is 1. -/
def run (body : Except (List Char) Outcome) : Nat × Option (List Char) :=
  match body with
  | .ok o => (returnCode o, none)
  | .error e => (1, some ("[ERROR] Error creating tag: ".data ++ e))

end CreateVersionTag

/-- Group captured when the version pattern is applied to a single
newline-free line: the remainder of the line after "version:" and any
following whitespace, provided that remainder is nonempty. -/
def lineGroup (l : List Char) : Option (List Char) :=
  match stripVersionKey l with
  | none => none
  | some t =>
    match t.dropWhile isPySpace with
    | [] => none
    | x :: xs => some (x :: xs)

/-- Whether the version pattern matches a single newline-free line. -/
def lineMatches (l : List Char) : Bool := (lineGroup l).isSome

/-- A line is contentful when, if it starts with "version:", something
non-whitespace follows; on such lines the regex match never spills over
into the following lines. -/
def versionContentful (l : List Char) : Bool :=
  match stripVersionKey l with
  | none => true
  | some t => !(t.dropWhile isPySpace).isEmpty

/-- Well-behaved line decomposition of a text: every line is free of
newlines and contentful. -/
def GoodLines (ls : List (List Char)) : Prop :=
  ∀ l ∈ ls, '\n' ∉ l ∧ versionContentful l = true

instance (ls : List (List Char)) : Decidable (GoodLines ls) :=
  List.decidableBAll _ ls

/-- Join lines with newline separators. -/
def joinLines : List (List Char) → List Char
  | [] => []
  | l :: ls =>
    l ++ (match ls with
          | [] => []
          | _ :: _ => '\n' :: joinLines ls)

theorem joinLines_singleton (l : List Char) : joinLines [l] = l :=
  List.append_nil l

theorem joinLines_cons_cons (l l2 : List Char) (ls : List (List Char)) :
    joinLines (l :: l2 :: ls) = l ++ '\n' :: joinLines (l2 :: ls) := rfl

/-- Captured group of the first line on which the version pattern
matches. -/
def firstGroup : List (List Char) → Option (List Char)
  | [] => none
  | l :: ls =>
    match lineGroup l with
    | some g => some g
    | none => firstGroup ls

/-- Shape of the text that follows a line inside a joined line list:
nothing, or a newline and the rest. -/
def RestShape (rest : List Char) : Prop := rest = [] ∨ ∃ r, rest = '\n' :: r

theorem stripPre_eq_some {p : List Char} :
    ∀ {s t : List Char}, stripPre p s = some t → s = p ++ t := by
  induction p with
  | nil =>
    intro s t h
    simp only [stripPre, Option.some.injEq] at h
    simp [h]
  | cons a p ih =>
    intro s t h
    cases s with
    | nil => simp [stripPre] at h
    | cons c cs =>
      simp only [stripPre] at h
      by_cases hac : a = c
      · rw [if_pos hac] at h
        subst hac
        rw [List.cons_append, ih h]
      · rw [if_neg hac] at h
        exact absurd h (by simp)

theorem stripPre_self {p x : List Char} : stripPre p (p ++ x) = some x := by
  induction p with
  | nil => rfl
  | cons a p ih => simp [stripPre, ih]

theorem stripPre_append {p s t : List Char} (h : stripPre p s = some t)
    (u : List Char) : stripPre p (s ++ u) = some (t ++ u) := by
  rw [stripPre_eq_some h, List.append_assoc]
  exact stripPre_self

theorem stripPre_append_newline_none {p : List Char} (hp : '\n' ∉ p) :
    ∀ {s : List Char}, stripPre p s = none →
      ∀ r, stripPre p (s ++ '\n' :: r) = none := by
  induction p with
  | nil => intro s h _; simp [stripPre] at h
  | cons a p ih =>
    intro s h r
    have ha : a ≠ '\n' := fun e => hp (e ▸ List.mem_cons_self a p)
    have hp' : '\n' ∉ p := fun hm => hp (List.mem_cons_of_mem a hm)
    cases s with
    | nil => simp [stripPre, ha]
    | cons c cs =>
      by_cases hac : a = c
      · simp only [stripPre, List.cons_append, if_pos hac] at h ⊢
        exact ih hp' h r
      · simp only [stripPre, List.cons_append, if_neg hac]

theorem matchVersionAt_line_some {l rest g : List Char}
    (hnl : '\n' ∉ l) (hg : lineGroup l = some g) (hr : RestShape rest) :
    matchVersionAt (l ++ rest) = some (g, rest) := by
  unfold lineGroup at hg
  split at hg
  · exact absurd hg (by simp)
  · rename_i t hsv
    split at hg
    · exact absurd hg (by simp)
    · rename_i x xs hdw
      simp only [Option.some.injEq] at hg
      have hsl : l = verKey ++ t := stripPre_eq_some hsv
      have hmem : ∀ c ∈ x :: xs, c ∈ l := by
        intro c hc
        have h1 : c ∈ t := (List.dropWhile_sublist isPySpace).mem (hdw ▸ hc)
        rw [hsl]; exact List.mem_append_right _ h1
      have hall : ∀ c ∈ x :: xs, notNL c = true := by
        intro c hc
        have : c ≠ '\n' := fun e => hnl (e ▸ hmem c hc)
        simp [notNL, this]
      have hsv2 : stripVersionKey (l ++ rest) = some (t ++ rest) :=
        stripPre_append hsv rest
      have hdw2 : (t ++ rest).dropWhile isPySpace = x :: (xs ++ rest) := by
        have hne : ¬(t.dropWhile isPySpace).isEmpty = true := by simp [hdw]
        rw [List.dropWhile_append, if_neg hne, hdw, List.cons_append]
      have htk : (x :: (xs ++ rest)).takeWhile notNL = x :: xs := by
        rw [← List.cons_append, List.takeWhile_append_of_pos hall]
        cases hr with
        | inl he => subst he; simp
        | inr hE =>
          obtain ⟨r, hrr⟩ := hE
          rw [hrr]
          simp [List.takeWhile_cons, notNL]
      have hdr : (x :: (xs ++ rest)).dropWhile notNL = rest := by
        rw [← List.cons_append, List.dropWhile_append_of_pos hall]
        cases hr with
        | inl he => subst he; simp
        | inr hE =>
          obtain ⟨r, hrr⟩ := hE
          rw [hrr]
          simp [List.dropWhile_cons, notNL]
      unfold matchVersionAt
      split
      · rename_i hnone
        rw [hsv2] at hnone
        exact absurd hnone (by simp)
      · rename_i t' hsome
        rw [hsv2] at hsome
        injection hsome with ht'
        subst ht'
        split
        · rename_i hnil
          rw [hdw2] at hnil
          exact absurd hnil (by simp)
        · rename_i y ys hcons
          rw [hdw2] at hcons
          rw [← hcons, htk, hdr, hg]

theorem contentful_dropWhile_ne_nil {l t : List Char}
    (hsv : stripVersionKey l = some t) (hcf : versionContentful l = true) :
    t.dropWhile isPySpace ≠ [] := by
  unfold versionContentful at hcf
  split at hcf
  · rename_i hsvn
    rw [hsv] at hsvn
    exact absurd hsvn (by simp)
  · rename_i t' hsv'
    rw [hsv] at hsv'
    injection hsv' with ht
    subst ht
    simpa using hcf

theorem matchVersionAt_line_none {l rest : List Char}
    (hcf : versionContentful l = true) (hg : lineGroup l = none)
    (hr : RestShape rest) : matchVersionAt (l ++ rest) = none := by
  unfold lineGroup at hg
  split at hg
  · rename_i hsv
    have hsv2 : stripVersionKey (l ++ rest) = none := by
      cases hr with
      | inl he => subst he; rw [List.append_nil]; exact hsv
      | inr hE =>
        obtain ⟨r, hrr⟩ := hE
        subst hrr
        exact stripPre_append_newline_none (by decide) hsv r
    unfold matchVersionAt
    split
    · rfl
    · rename_i t' hsome
      rw [hsv2] at hsome
      exact absurd hsome (by simp)
  · rename_i t hsv
    split at hg
    · rename_i hdw
      exact absurd hdw (contentful_dropWhile_ne_nil hsv hcf)
    · exact absurd hg (by simp)

theorem searchAux_nil (fuel : Nat) : searchAux fuel [] = none := by
  cases fuel with
  | zero => rfl
  | succ f => rfl

theorem subAux_nil (repl : List Char) (fuel : Nat) : subAux repl fuel [] = [] := by
  cases fuel with
  | zero => rfl
  | succ f => rfl

theorem line_copy {l rest : List Char} (hnl : '\n' ∉ l) (hr : RestShape rest) :
    (l ++ rest).takeWhile notNL = l ∧ (l ++ rest).dropWhile notNL = rest := by
  have hall : ∀ c ∈ l, notNL c = true := by
    intro c hc
    have : c ≠ '\n' := fun e => hnl (e ▸ hc)
    simp [notNL, this]
  refine ⟨?_, ?_⟩
  · rw [List.takeWhile_append_of_pos hall]
    cases hr with
    | inl he => subst he; simp
    | inr hE =>
      obtain ⟨r, hrr⟩ := hE
      rw [hrr]
      simp [List.takeWhile_cons, notNL]
  · rw [List.dropWhile_append_of_pos hall]
    cases hr with
    | inl he => subst he; simp
    | inr hE =>
      obtain ⟨r, hrr⟩ := hE
      rw [hrr]
      simp [List.dropWhile_cons, notNL]

theorem searchAux_joinLines :
    ∀ ls : List (List Char), GoodLines ls →
      ∀ fuel : Nat, (joinLines ls).length < fuel →
        searchAux fuel (joinLines ls) = firstGroup ls := by
  intro ls
  induction ls with
  | nil => intro _ fuel _; exact searchAux_nil fuel
  | cons l ls ih =>
    intro hg fuel hf
    obtain ⟨hnl, hcf⟩ := hg l (List.mem_cons_self l ls)
    have hg' : GoodLines ls := fun x hx => hg x (List.mem_cons_of_mem l hx)
    cases ls with
    | nil =>
      cases fuel with
      | zero => exact absurd hf (by simp)
      | succ f =>
        cases hlg : lineGroup l with
        | some g =>
          have hm : matchVersionAt l = some (g, []) := by
            have := matchVersionAt_line_some hnl hlg (Or.inl rfl)
            rwa [List.append_nil] at this
          simp [searchAux, joinLines_singleton, hm, firstGroup, hlg]
        | none =>
          have hm : matchVersionAt l = none := by
            have := matchVersionAt_line_none hcf hlg (Or.inl rfl)
            rwa [List.append_nil] at this
          have hdw : l.dropWhile notNL = [] := by
            have := (line_copy hnl (Or.inl rfl)).2
            rwa [List.append_nil] at this
          simp [searchAux, joinLines_singleton, hm, hdw, firstGroup, hlg]
    | cons l2 ls2 =>
      cases fuel with
      | zero => exact absurd hf (by simp)
      | succ f =>
        have hj : joinLines (l :: l2 :: ls2) = l ++ '\n' :: joinLines (l2 :: ls2) :=
          joinLines_cons_cons l l2 ls2
        have hrs : RestShape ('\n' :: joinLines (l2 :: ls2)) := Or.inr ⟨_, rfl⟩
        have hf' : (joinLines (l2 :: ls2)).length < f := by
          rw [hj] at hf
          simp [List.length_append, List.length_cons] at hf
          omega
        cases hlg : lineGroup l with
        | some g =>
          have hm := matchVersionAt_line_some hnl hlg hrs
          rw [hj]
          simp [searchAux, hm, firstGroup, hlg]
        | none =>
          have hm := matchVersionAt_line_none hcf hlg hrs
          have hdw := (line_copy hnl hrs).2
          rw [hj]
          simp [searchAux, hm, hdw, firstGroup, hlg, ih hg' f hf']

theorem subAux_joinLines (repl : List Char) :
    ∀ ls : List (List Char), GoodLines ls →
      ∀ fuel : Nat, (joinLines ls).length < fuel →
        subAux repl fuel (joinLines ls) =
          joinLines (ls.map (fun l => if lineMatches l then repl else l)) := by
  intro ls
  induction ls with
  | nil => intro _ fuel _; exact subAux_nil repl fuel
  | cons l ls ih =>
    intro hg fuel hf
    obtain ⟨hnl, hcf⟩ := hg l (List.mem_cons_self l ls)
    have hg' : GoodLines ls := fun x hx => hg x (List.mem_cons_of_mem l hx)
    cases ls with
    | nil =>
      cases fuel with
      | zero => exact absurd hf (by simp)
      | succ f =>
        cases hlg : lineGroup l with
        | some g =>
          have hm : matchVersionAt l = some (g, []) := by
            have := matchVersionAt_line_some hnl hlg (Or.inl rfl)
            rwa [List.append_nil] at this
          have hlm : lineMatches l = true := by simp [lineMatches, hlg]
          simp [subAux, joinLines_singleton, hm, hlm]
        | none =>
          have hm : matchVersionAt l = none := by
            have := matchVersionAt_line_none hcf hlg (Or.inl rfl)
            rwa [List.append_nil] at this
          have hdw : l.dropWhile notNL = [] := by
            have := (line_copy hnl (Or.inl rfl)).2
            rwa [List.append_nil] at this
          have hlm : lineMatches l = false := by simp [lineMatches, hlg]
          simp [subAux, joinLines_singleton, hm, hdw, hlm]
    | cons l2 ls2 =>
      cases fuel with
      | zero => exact absurd hf (by simp)
      | succ f =>
        have hj : joinLines (l :: l2 :: ls2) = l ++ '\n' :: joinLines (l2 :: ls2) :=
          joinLines_cons_cons l l2 ls2
        have hrs : RestShape ('\n' :: joinLines (l2 :: ls2)) := Or.inr ⟨_, rfl⟩
        have hf' : (joinLines (l2 :: ls2)).length < f := by
          rw [hj] at hf
          simp [List.length_append, List.length_cons] at hf
          omega
        have hmapj : ∀ repl2 : List Char,
            joinLines ((l :: l2 :: ls2).map
              (fun x => if lineMatches x then repl2 else x)) =
            (if lineMatches l then repl2 else l) ++ '\n' ::
              joinLines ((l2 :: ls2).map
                (fun x => if lineMatches x then repl2 else x)) := by
          intro repl2
          rfl
        cases hlg : lineGroup l with
        | some g =>
          have hm := matchVersionAt_line_some hnl hlg hrs
          have hlm : lineMatches l = true := by simp [lineMatches, hlg]
          rw [hj, hmapj, hlm]
          simp [subAux, hm, ih hg' f hf']
        | none =>
          have hm := matchVersionAt_line_none hcf hlg hrs
          have hcopy := line_copy hnl hrs
          have hlm : lineMatches l = false := by simp [lineMatches, hlg]
          rw [hj, hmapj, hlm]
          simp [subAux, hm, hcopy.1, hcopy.2, ih hg' f hf']

theorem searchVersion_joinLines {ls : List (List Char)} (h : GoodLines ls) :
    searchVersion (joinLines ls) = firstGroup ls :=
  searchAux_joinLines ls h _ (Nat.lt_succ_self _)

theorem subVersionAll_joinLines {repl : List Char} {ls : List (List Char)}
    (h : GoodLines ls) :
    subVersionAll repl (joinLines ls) =
      joinLines (ls.map (fun l => if lineMatches l then repl else l)) :=
  subAux_joinLines repl ls h _ (Nat.lt_succ_self _)

theorem firstGroup_isSome {ls : List (List Char)}
    (hm : ∃ l ∈ ls, lineMatches l = true) : ∃ g, firstGroup ls = some g := by
  induction ls with
  | nil => simp at hm
  | cons l ls ih =>
    cases hlg : lineGroup l with
    | some g => exact ⟨g, by simp [firstGroup, hlg]⟩
    | none =>
      obtain ⟨x, hx, hmx⟩ := hm
      cases List.mem_cons.mp hx with
      | inl he =>
        subst he
        rw [lineMatches, hlg] at hmx
        simp at hmx
      | inr hmem =>
        obtain ⟨g, hgg⟩ := ih ⟨x, hmem, hmx⟩
        exact ⟨g, by simp [firstGroup, hlg, hgg]⟩

theorem firstGroup_map_replace {ls : List (List Char)} {repl g0 : List Char}
    (hrg : lineGroup repl = some g0) (hm : ∃ l ∈ ls, lineMatches l = true) :
    firstGroup (ls.map (fun l => if lineMatches l then repl else l)) = some g0 := by
  induction ls with
  | nil => simp at hm
  | cons l ls ih =>
    by_cases h : lineMatches l = true
    · simp [firstGroup, h, hrg]
    · have hlg : lineGroup l = none := by
        cases hl : lineGroup l with
        | none => rfl
        | some g => exact absurd (by simp [lineMatches, hl]) h
      have hm' : ∃ x ∈ ls, lineMatches x = true := by
        obtain ⟨x, hx, hmx⟩ := hm
        cases List.mem_cons.mp hx with
        | inl he => exact absurd (he ▸ hmx) h
        | inr hmem => exact ⟨x, hmem, hmx⟩
      simp [firstGroup, h, hlg, ih hm']

theorem goodLines_map_replace {ls : List (List Char)} {repl : List Char}
    (h : GoodLines ls) (hr : '\n' ∉ repl) (hc : versionContentful repl = true) :
    GoodLines (ls.map (fun l => if lineMatches l then repl else l)) := by
  intro x hx
  obtain ⟨l, hl, he⟩ := List.mem_map.mp hx
  by_cases hm : lineMatches l = true
  · rw [if_pos hm] at he
    subst he
    exact ⟨hr, hc⟩
  · rw [if_neg hm] at he
    subst he
    exact h l hl

theorem dropWhile_eq_self_of_pyStrip {v : List Char} (h : pyStrip v = v) :
    v.dropWhile isPySpace = v := by
  have h1 : List.Sublist (v.dropWhile isPySpace) v := List.dropWhile_sublist _
  have h2 : (pyStrip v).length ≤ (v.dropWhile isPySpace).length := by
    unfold pyStrip
    rw [List.length_reverse]
    calc ((v.dropWhile isPySpace).reverse.dropWhile isPySpace).length
        ≤ (v.dropWhile isPySpace).reverse.length :=
          (List.dropWhile_sublist _).length_le
      _ = (v.dropWhile isPySpace).length := List.length_reverse _
  rw [h] at h2
  exact h1.eq_of_length (Nat.le_antisymm h1.length_le h2)

theorem versionRepl_decomp (v : List Char) :
    SyncVersion.versionRepl v = verKey ++ (' ' :: v) := rfl

theorem lineGroup_versionRepl {v : List Char}
    (hds : v.dropWhile isPySpace = v) (hne : v ≠ []) :
    lineGroup (SyncVersion.versionRepl v) = some v := by
  have hsv : stripVersionKey (SyncVersion.versionRepl v) = some (' ' :: v) := by
    rw [versionRepl_decomp]
    exact stripPre_self
  have hdw : (' ' :: v).dropWhile isPySpace = v := by
    rw [List.dropWhile_cons]
    simp only [show isPySpace ' ' = true from rfl, if_true]
    exact hds
  unfold lineGroup
  split
  · rename_i hn
    rw [hsv] at hn
    exact absurd hn (by simp)
  · rename_i t hsome
    rw [hsv] at hsome
    injection hsome with ht
    subst ht
    split
    · rename_i hnil
      rw [hdw] at hnil
      exact absurd hnil hne
    · rename_i x xs hcons
      rw [hdw] at hcons
      rw [hcons]

theorem versionRepl_no_newline {v : List Char} (hv : '\n' ∉ v) :
    '\n' ∉ SyncVersion.versionRepl v := by
  rw [versionRepl_decomp]
  intro hmem
  cases List.mem_append.mp hmem with
  | inl h => exact absurd h (by decide)
  | inr h =>
    cases List.mem_cons.mp h with
    | inl he => exact absurd he (by decide)
    | inr hm => exact hv hm

theorem versionContentful_versionRepl {v : List Char}
    (hds : v.dropWhile isPySpace = v) (hne : v ≠ []) :
    versionContentful (SyncVersion.versionRepl v) = true := by
  unfold versionContentful
  split
  · rfl
  · rename_i t hsome
    rw [versionRepl_decomp,
        show stripVersionKey (verKey ++ ' ' :: v) = some (' ' :: v) from
          stripPre_self] at hsome
    injection hsome with ht
    subst ht
    rw [List.dropWhile_cons]
    simp only [show isPySpace ' ' = true from rfl, if_true]
    rw [hds]
    simpa using hne

/-- Descriptor content after one run of Version Sync: the content written
on the updated path, the original content on every other path. -/
def afterSync (mv : Option (List Char)) (p : List Char) : List Char :=
  match SyncVersion.main mv p with
  | .updated c => c
  | _ => p

/-- The version field of a descriptor as the script reads it: group 1 of
the first match of the version pattern, stripped. -/
def descVersion (p : List Char) : Option (List Char) :=
  (searchVersion p).map pyStrip

theorem syncMain_some_some {mv p g : List Char}
    (hs : searchVersion p = some g) :
    SyncVersion.main (some mv) p =
      if pyStrip g = mv then .inSync
      else .updated (subVersionAll (SyncVersion.versionRepl mv) p) := by
  simp only [SyncVersion.main, hs]

theorem syncMain_some_none {mv p : List Char} (hs : searchVersion p = none) :
    SyncVersion.main (some mv) p = .noPubspecVersion := by
  simp only [SyncVersion.main, hs]

/-- Claim C1 is refuted on this input: the manifest version is 3.0 and the
descriptor holds two lines matching the version pattern, with value 1.0
and value 2.0.  The script rewrites both matching lines, not only the
first one, so the result differs from the content in which only the
matched first line is replaced and the line version: 2.0 is kept
verbatim. -/
theorem sync_first_match_only_counterexample :
    SyncVersion.main (some "3.0".data)
        "version: 1.0\nname: demo\nversion: 2.0".data =
      .updated "version: 3.0\nname: demo\nversion: 3.0".data ∧
    "version: 3.0\nname: demo\nversion: 3.0".data ≠
      "version: 3.0\nname: demo\nversion: 2.0".data := by
  constructor
  · decide
  · decide

/-- Claim C1 as amended: whenever Version Sync rewrites the descriptor,
the new content replaces every line matching the version pattern with
the line version: manifest-value, and preserves every line that does not
match the pattern byte-for-byte (the parse of the current value still
uses only the first match).  The lines are newline-free and every
version line carries a non-whitespace value, and the manifest version
holds no backslash (so the re.sub template is literal). -/
theorem sync_replaces_every_matching_line (v : List Char)
    (ls : List (List Char)) (hg : GoodLines ls) (hbs : '\\' ∉ v)
    (c : List Char)
    (h : SyncVersion.main (some v) (joinLines ls) = .updated c) :
    c = joinLines (ls.map
      (fun l => if lineMatches l then SyncVersion.versionRepl v else l)) := by
  cases hsv : searchVersion (joinLines ls) with
  | none => rw [syncMain_some_none hsv] at h; exact absurd h (by simp)
  | some g =>
    rw [syncMain_some_some hsv] at h
    by_cases heq : pyStrip g = v
    · rw [if_pos heq] at h
      exact absurd h (by simp)
    · rw [if_neg heq] at h
      injection h with hc
      rw [← hc]
      exact subVersionAll_joinLines hg

/-- Witness for the amended claim C1 at the counterexample input. -/
theorem sync_replaces_every_matching_line_witness :
    "version: 3.0\nname: demo\nversion: 3.0".data =
      joinLines ((["version: 1.0".data, "name: demo".data,
          "version: 2.0".data]).map
        (fun l => if lineMatches l then SyncVersion.versionRepl "3.0".data
                  else l)) :=
  sync_replaces_every_matching_line "3.0".data
    ["version: 1.0".data, "name: demo".data, "version: 2.0".data]
    (by decide) (by decide) _ (by decide)

/-- Claim C2: for a well-behaved descriptor with at least one matching
version line and a manifest version that is a nonempty token (no newline,
no backslash, no surrounding whitespace), one run of Version Sync leaves
the descriptor version field equal to the manifest version, and a second
run immediately afterwards reports the versions in sync, hence changes
nothing (no write and no staging happen on the inSync path). -/
theorem sync_idempotent (v : List Char) (ls : List (List Char))
    (hg : GoodLines ls) (hm : ∃ l ∈ ls, lineMatches l = true)
    (hne : v ≠ []) (hnl : '\n' ∉ v) (hbs : '\\' ∉ v)
    (hst : pyStrip v = v) :
    descVersion (afterSync (some v) (joinLines ls)) = some v ∧
    SyncVersion.main (some v) (afterSync (some v) (joinLines ls)) =
      .inSync := by
  have hds := dropWhile_eq_self_of_pyStrip hst
  have hfj := searchVersion_joinLines hg
  obtain ⟨g, hfg⟩ := firstGroup_isSome hm
  have hs : searchVersion (joinLines ls) = some g := by rw [hfj, hfg]
  by_cases heq : pyStrip g = v
  · have hmain : SyncVersion.main (some v) (joinLines ls) = .inSync := by
      rw [syncMain_some_some hs, if_pos heq]
    have haf : afterSync (some v) (joinLines ls) = joinLines ls := by
      unfold afterSync
      rw [hmain]
    rw [haf]
    constructor
    · unfold descVersion
      rw [hs]
      simp [heq]
    · exact hmain
  · have hmain : SyncVersion.main (some v) (joinLines ls) =
        .updated (subVersionAll (SyncVersion.versionRepl v) (joinLines ls)) := by
      rw [syncMain_some_some hs, if_neg heq]
    have haf : afterSync (some v) (joinLines ls) =
        subVersionAll (SyncVersion.versionRepl v) (joinLines ls) := by
      unfold afterSync
      rw [hmain]
    have hg2 : GoodLines (ls.map
        (fun l => if lineMatches l then SyncVersion.versionRepl v else l)) :=
      goodLines_map_replace hg (versionRepl_no_newline hnl)
        (versionContentful_versionRepl hds hne)
    have hs2 : searchVersion
        (subVersionAll (SyncVersion.versionRepl v) (joinLines ls)) = some v := by
      rw [subVersionAll_joinLines hg, searchVersion_joinLines hg2,
          firstGroup_map_replace (lineGroup_versionRepl hds hne) hm]
    rw [haf]
    constructor
    · unfold descVersion
      rw [hs2]
      simp [hst]
    · rw [syncMain_some_some hs2, if_pos hst]

/-- Witness for claim C2 at the example of the specification: manifest
version 2.1.0 and a descriptor holding version: 2.0.9. -/
theorem sync_idempotent_witness :
    descVersion (afterSync (some "2.1.0".data)
        (joinLines ["name: demo".data, "version: 2.0.9".data])) =
      some "2.1.0".data ∧
    SyncVersion.main (some "2.1.0".data)
        (afterSync (some "2.1.0".data)
          (joinLines ["name: demo".data, "version: 2.0.9".data])) =
      .inSync :=
  sync_idempotent "2.1.0".data ["name: demo".data, "version: 2.0.9".data]
    (by decide) (by decide) (by decide) (by decide) (by decide) (by decide)

/-- Claim C5: when the descriptor version (the stripped first group)
already equals the manifest version, the run ends on the inSync path,
which writes nothing and stages nothing; conversely the only path that
writes or stages is the updated path, reached exactly when a version line
was found and its stripped value diverges from the manifest version. -/
theorem sync_no_write_when_equal :
    (∀ v p g : List Char, searchVersion p = some g → pyStrip g = v →
      SyncVersion.main (some v) p = .inSync ∧
      SyncVersion.writesFile .inSync = none ∧
      SyncVersion.stagesPubspec .inSync = false) ∧
    (∀ (mv : Option (List Char)) (p c : List Char),
      SyncVersion.main mv p = .updated c →
      ∃ v g, mv = some v ∧ searchVersion p = some g ∧ pyStrip g ≠ v) := by
  constructor
  · intro v p g hs he
    refine ⟨?_, rfl, rfl⟩
    rw [syncMain_some_some hs, if_pos he]
  · intro mv p c h
    cases mv with
    | none => exact absurd h (by simp [SyncVersion.main])
    | some v =>
      cases hsv : searchVersion p with
      | none =>
        rw [syncMain_some_none hsv] at h
        exact absurd h (by simp)
      | some g =>
        rw [syncMain_some_some hsv] at h
        by_cases heq : pyStrip g = v
        · rw [if_pos heq] at h
          exact absurd h (by simp)
        · exact ⟨v, g, rfl, rfl, heq⟩

/-- Witness for claim C5: equal versions produce the inSync outcome. -/
theorem sync_no_write_when_equal_witness :
    SyncVersion.main (some "1.0".data) "version: 1.0".data = .inSync :=
  (sync_no_write_when_equal.1 "1.0".data "version: 1.0".data "1.0".data
    (by decide) (by decide)).1

/-- Claim C6: a manifest without a version key, or a descriptor without a
matching version line, makes Version Sync a reported no-op succeeding
with return value 0 and touching neither the file nor the staging
area. -/
theorem sync_missing_inputs_noop :
    (∀ p : List Char,
      SyncVersion.main none p = .noManifestVersion ∧
      SyncVersion.writesFile .noManifestVersion = none ∧
      SyncVersion.stagesPubspec .noManifestVersion = false ∧
      SyncVersion.returnCode .noManifestVersion = 0 ∧
      SyncVersion.message .noManifestVersion =
        "[!] No version found in manifest.json".data) ∧
    (∀ v p : List Char, searchVersion p = none →
      SyncVersion.main (some v) p = .noPubspecVersion ∧
      SyncVersion.writesFile .noPubspecVersion = none ∧
      SyncVersion.stagesPubspec .noPubspecVersion = false ∧
      SyncVersion.returnCode .noPubspecVersion = 0 ∧
      SyncVersion.message .noPubspecVersion =
        "[!] No version found in pubspec.yaml".data) := by
  constructor
  · intro p
    exact ⟨rfl, rfl, rfl, rfl, rfl⟩
  · intro v p hs
    exact ⟨syncMain_some_none hs, rfl, rfl, rfl, rfl⟩

/-- Witness for claim C6: a descriptor with no version line. -/
theorem sync_missing_inputs_noop_witness :
    SyncVersion.main (some "1.0".data) "name: demo".data =
      .noPubspecVersion :=
  (sync_missing_inputs_noop.2 "1.0".data "name: demo".data (by decide)).1

theorem branch_cond_true {w : CreateVersionTag.GitWorld}
    (hb : CreateVersionTag.current_branch w = "main".data ∨
          CreateVersionTag.current_branch w = "master".data) :
    (CreateVersionTag.current_branch w == "main".data ||
     CreateVersionTag.current_branch w == "master".data) = true := by
  cases hb with
  | inl h => simp [h]
  | inr h => simp [h]

theorem tagMain_gate_branch {mv : Option (List Char)} {v : List Char}
    {w : CreateVersionTag.GitWorld} (hv : mv = some v)
    (h1 : CreateVersionTag.current_branch w ≠ "main".data)
    (h2 : CreateVersionTag.current_branch w ≠ "master".data) :
    CreateVersionTag.main mv w =
      .notMainBranch (CreateVersionTag.current_branch w) := by
  subst hv
  have hbeq : (CreateVersionTag.current_branch w == "main".data ||
      CreateVersionTag.current_branch w == "master".data) = false := by
    simp [h1, h2]
  simp [CreateVersionTag.main, hbeq]

theorem tagMain_gate_tag {v : List Char} {w : CreateVersionTag.GitWorld}
    (hb : CreateVersionTag.current_branch w = "main".data ∨
          CreateVersionTag.current_branch w = "master".data)
    (ht : CreateVersionTag.tag_exists w ('v' :: v) = true) :
    CreateVersionTag.main (some v) w = .tagAlreadyExists ('v' :: v) := by
  simp [CreateVersionTag.main, branch_cond_true hb, ht]

theorem tagMain_gate_changes {v : List Char} {w : CreateVersionTag.GitWorld}
    (hb : CreateVersionTag.current_branch w = "main".data ∨
          CreateVersionTag.current_branch w = "master".data)
    (ht : CreateVersionTag.tag_exists w ('v' :: v) = false)
    (hc : CreateVersionTag.has_version_changes w = false) :
    CreateVersionTag.main (some v) w = .noVersionChanges := by
  simp [CreateVersionTag.main, branch_cond_true hb, ht, hc]

theorem tagMain_all_gates {v : List Char} {w : CreateVersionTag.GitWorld}
    (hb : CreateVersionTag.current_branch w = "main".data ∨
          CreateVersionTag.current_branch w = "master".data)
    (ht : CreateVersionTag.tag_exists w ('v' :: v) = false)
    (hc : CreateVersionTag.has_version_changes w = true) :
    CreateVersionTag.main (some v) w = .created ('v' :: v) w.pushResult.1 := by
  simp [CreateVersionTag.main, branch_cond_true hb, ht, hc]

theorem tagMain_created_inversion {mv : Option (List Char)}
    {w : CreateVersionTag.GitWorld} {t : List Char} {pr : Int}
    (h : CreateVersionTag.main mv w = .created t pr) :
    ∃ v, mv = some v ∧ t = 'v' :: v ∧
      (CreateVersionTag.current_branch w = "main".data ∨
       CreateVersionTag.current_branch w = "master".data) ∧
      CreateVersionTag.tag_exists w ('v' :: v) = false ∧
      CreateVersionTag.has_version_changes w = true ∧
      pr = w.pushResult.1 := by
  cases mv with
  | none => exact absurd h (by simp [CreateVersionTag.main])
  | some v =>
    simp only [CreateVersionTag.main] at h
    split at h
    · exact absurd h (by simp)
    · rename_i hcond
      split at h
      · exact absurd h (by simp)
      · rename_i htag
        split at h
        · exact absurd h (by simp)
        · rename_i hch
          injection h with h1 h2
          have hb : CreateVersionTag.current_branch w = "main".data ∨
              CreateVersionTag.current_branch w = "master".data := by
            have hbeq : (CreateVersionTag.current_branch w == "main".data ||
                CreateVersionTag.current_branch w == "master".data) = true := by
              revert hcond
              cases CreateVersionTag.current_branch w == "main".data ||
                  CreateVersionTag.current_branch w == "master".data <;> simp
            cases Bool.or_eq_true_iff.mp hbeq with
            | inl hh => exact Or.inl (by simpa using hh)
            | inr hh => exact Or.inr (by simpa using hh)
          refine ⟨v, rfl, h1.symm, hb, ?_, ?_, h2.symm⟩
          · simpa using htag
          · simpa using hch

/-- Claim C3: whenever the tag 'v' version already resolves (tag_exists
is true) and the earlier gates were passed, the run ends on the
tagAlreadyExists path, which returns 0, creates no tag and pushes
nothing; conversely the creation path is reached only when tag_exists
reported false, so no existing tag is ever overwritten. -/
theorem tag_never_overwrites (v : List Char)
    (w : CreateVersionTag.GitWorld) :
    (CreateVersionTag.tag_exists w ('v' :: v) = true →
      (CreateVersionTag.current_branch w = "main".data ∨
       CreateVersionTag.current_branch w = "master".data) →
      CreateVersionTag.main (some v) w = .tagAlreadyExists ('v' :: v) ∧
      CreateVersionTag.returnCode (.tagAlreadyExists ('v' :: v)) = 0 ∧
      CreateVersionTag.tagCreated (.tagAlreadyExists ('v' :: v)) = none ∧
      CreateVersionTag.pushAttempted (.tagAlreadyExists ('v' :: v)) = false) ∧
    (∀ (t : List Char) (pr : Int),
      CreateVersionTag.main (some v) w = .created t pr →
      CreateVersionTag.tag_exists w t = false) := by
  constructor
  · intro ht hb
    exact ⟨tagMain_gate_tag hb ht, rfl, rfl, rfl⟩
  · intro t pr h
    obtain ⟨v2, hv, htag, _, hex, _, _⟩ := tagMain_created_inversion h
    injection hv with hv2
    subst hv2
    rw [htag]
    exact hex

/-- Witness for claim C3: an existing tag (rev-parse return code 0) on
the main branch ends in the tagAlreadyExists skip. -/
theorem tag_never_overwrites_witness :
    CreateVersionTag.main (some "1.0".data)
        ⟨("main".data, 0), fun _ => ([], 0), ([], 0), (0, [])⟩ =
      .tagAlreadyExists ('v' :: "1.0".data) :=
  ((tag_never_overwrites "1.0".data
      ⟨("main".data, 0), fun _ => ([], 0), ([], 0), (0, [])⟩).1
    (by decide) (by decide)).1

/-- Claim C4: with the version present, the branch gate passed and the
tag absent, the run skips with return value 0 and no tag when no changed
path is manifest.json or pubspec.yaml, and proceeds to creation when one
of the two is among the changed paths; has_version_changes is exactly
membership of one of the two names in the changed-file list. -/
theorem tag_changed_files_gate (v : List Char)
    (w : CreateVersionTag.GitWorld)
    (hb : CreateVersionTag.current_branch w = "main".data ∨
          CreateVersionTag.current_branch w = "master".data)
    (ht : CreateVersionTag.tag_exists w ('v' :: v) = false) :
    (CreateVersionTag.has_version_changes w = false →
      CreateVersionTag.main (some v) w = .noVersionChanges ∧
      CreateVersionTag.returnCode .noVersionChanges = 0 ∧
      CreateVersionTag.tagCreated .noVersionChanges = none) ∧
    (CreateVersionTag.has_version_changes w = true →
      CreateVersionTag.main (some v) w =
        .created ('v' :: v) w.pushResult.1) ∧
    (CreateVersionTag.has_version_changes w = true ↔
      "manifest.json".data ∈ CreateVersionTag.changed_files_list w ∨
      "pubspec.yaml".data ∈ CreateVersionTag.changed_files_list w) := by
  refine ⟨fun hc => ⟨tagMain_gate_changes hb ht hc, rfl, rfl⟩,
          fun hc => tagMain_all_gates hb ht hc, ?_⟩
  unfold CreateVersionTag.has_version_changes
  rw [List.any_eq_true]
  constructor
  · intro hex
    obtain ⟨x, hx, hor⟩ := hex
    cases Bool.or_eq_true_iff.mp hor with
    | inl hh => exact Or.inl (beq_iff_eq.mp hh ▸ hx)
    | inr hh => exact Or.inr (beq_iff_eq.mp hh ▸ hx)
  · intro hor
    cases hor with
    | inl hh => exact ⟨_, hh, by simp⟩
    | inr hh => exact ⟨_, hh, by simp⟩

/-- Witness for claim C4: manifest.json among the changed files leads to
the creation path. -/
theorem tag_changed_files_gate_witness :
    CreateVersionTag.main (some "1.0".data)
        ⟨("main".data, 0), fun _ => ([], 128),
         ("manifest.json\nlib/a.dart".data, 0), (0, [])⟩ =
      .created ('v' :: "1.0".data) 0 :=
  ((tag_changed_files_gate "1.0".data
      ⟨("main".data, 0), fun _ => ([], 128),
       ("manifest.json\nlib/a.dart".data, 0), (0, [])⟩
      (by decide) (by decide)).2.1 (by decide))

/-- Claim C8: when every gate passes and the push return code is not 0,
the run still completes on the created path with return value 0, and the
post-push report holds the remote error text and the manual-recovery
push command. -/
theorem tag_push_failure_nonfatal (v : List Char)
    (w : CreateVersionTag.GitWorld)
    (hb : CreateVersionTag.current_branch w = "main".data ∨
          CreateVersionTag.current_branch w = "master".data)
    (ht : CreateVersionTag.tag_exists w ('v' :: v) = false)
    (hc : CreateVersionTag.has_version_changes w = true)
    (hp : w.pushResult.1 ≠ 0) :
    CreateVersionTag.main (some v) w =
      .created ('v' :: v) w.pushResult.1 ∧
    CreateVersionTag.returnCode (.created ('v' :: v) w.pushResult.1) = 0 ∧
    CreateVersionTag.pushReport ('v' :: v) w.pushResult.1 w.pushResult.2 =
      ["[!] Failed to push tag: ".data ++ w.pushResult.2,
       "    You can manually push with: git push origin ".data ++
         ('v' :: v)] := by
  refine ⟨tagMain_all_gates hb ht hc, rfl, ?_⟩
  unfold CreateVersionTag.pushReport
  rw [if_neg]
  simpa using hp

/-- Witness for claim C8: a rejected push still ends with return value 0
and the two failure lines. -/
theorem tag_push_failure_nonfatal_witness :
    CreateVersionTag.main (some "1.0".data)
        ⟨("main".data, 0), fun _ => ([], 128),
         ("pubspec.yaml".data, 0), (1, "remote rejected".data)⟩ =
      .created ('v' :: "1.0".data) 1 :=
  (tag_push_failure_nonfatal "1.0".data
      ⟨("main".data, 0), fun _ => ([], 128),
       ("pubspec.yaml".data, 0), (1, "remote rejected".data)⟩
      (by decide) (by decide) (by decide) (by decide)).1

/-- Claim C9: with a version present, a resolved branch differing from
main and from master ends the run on the notMainBranch skip with return
value 0; conversely the creation path is reached only when the resolved
branch is exactly main or exactly master. -/
theorem tag_branch_gate (mv : Option (List Char))
    (w : CreateVersionTag.GitWorld) :
    (∀ v : List Char, mv = some v →
      CreateVersionTag.current_branch w ≠ "main".data →
      CreateVersionTag.current_branch w ≠ "master".data →
      CreateVersionTag.main mv w =
        .notMainBranch (CreateVersionTag.current_branch w) ∧
      CreateVersionTag.returnCode
        (.notMainBranch (CreateVersionTag.current_branch w)) = 0) ∧
    (∀ (t : List Char) (pr : Int),
      CreateVersionTag.main mv w = .created t pr →
      CreateVersionTag.current_branch w = "main".data ∨
      CreateVersionTag.current_branch w = "master".data) := by
  constructor
  · intro v hv h1 h2
    exact ⟨tagMain_gate_branch hv h1 h2, rfl⟩
  · intro t pr h
    obtain ⟨v2, _, _, hb, _, _, _⟩ := tagMain_created_inversion h
    exact hb

/-- Witness for claim C9: the branch feature/x ends in the notMainBranch
skip. -/
theorem tag_branch_gate_witness :
    CreateVersionTag.main (some "1.0".data)
        ⟨("feature/x".data, 0), fun _ => ([], 128), ([], 0), (0, [])⟩ =
      .notMainBranch "feature/x".data :=
  ((tag_branch_gate (some "1.0".data)
      ⟨("feature/x".data, 0), fun _ => ([], 128), ([], 0), (0, [])⟩).1
    "1.0".data rfl (by decide) (by decide)).1

/-- Claim C10: the return codes of the branch query and of the diff query
never influence the outcome, and an empty diff output (as produced when
git diff HEAD~1 HEAD fails on a parentless commit, its return code
notwithstanding) ends the run on the noVersionChanges skip with return
value 0; an empty branch output likewise ends on the notMainBranch
skip. -/
theorem tag_query_codes_ignored :
    (∀ (mv : Option (List Char)) (b d : List Char) (rb rb2 rd rd2 : Int)
        (rp : List Char → List Char × Int) (pu : Int × List Char),
      CreateVersionTag.main mv ⟨(b, rb), rp, (d, rd), pu⟩ =
        CreateVersionTag.main mv ⟨(b, rb2), rp, (d, rd2), pu⟩) ∧
    (∀ (v : List Char) (w : CreateVersionTag.GitWorld),
      (CreateVersionTag.current_branch w = "main".data ∨
       CreateVersionTag.current_branch w = "master".data) →
      CreateVersionTag.tag_exists w ('v' :: v) = false →
      w.diffQuery.1 = [] →
      CreateVersionTag.main (some v) w = .noVersionChanges ∧
      CreateVersionTag.returnCode .noVersionChanges = 0) ∧
    (∀ (v : List Char) (w : CreateVersionTag.GitWorld),
      w.branchQuery.1 = [] →
      CreateVersionTag.main (some v) w = .notMainBranch [] ∧
      CreateVersionTag.returnCode (.notMainBranch []) = 0) := by
  refine ⟨?_, ?_, ?_⟩
  · intro mv b d rb rb2 rd rd2 rp pu
    cases mv with
    | none => rfl
    | some v => rfl
  · intro v w hb ht hd
    have hc : CreateVersionTag.has_version_changes w = false := by
      unfold CreateVersionTag.has_version_changes
        CreateVersionTag.changed_files_list CreateVersionTag.exec_command
      rw [hd]
      rfl
    exact ⟨tagMain_gate_changes hb ht hc, rfl⟩
  · intro v w hbq
    have hcb : CreateVersionTag.current_branch w = [] := by
      unfold CreateVersionTag.current_branch CreateVersionTag.exec_command
      rw [hbq]
      rfl
    have h := tagMain_gate_branch (w := w) (v := v) rfl
      (by rw [hcb]; decide) (by rw [hcb]; decide)
    rw [hcb] at h
    exact ⟨h, rfl⟩

/-- Witness for claim C10: a failed diff query (empty output, return code
128) ends on the noVersionChanges skip. -/
theorem tag_query_codes_ignored_witness :
    CreateVersionTag.main (some "1.0".data)
        ⟨("main".data, 0), fun _ => ([], 128), ([], 128), (0, [])⟩ =
      .noVersionChanges :=
  (tag_query_codes_ignored.2.1 "1.0".data
      ⟨("main".data, 0), fun _ => ([], 128), ([], 128), (0, [])⟩
      (by decide) (by decide) rfl).1

/-- Claim C7: for both scripts, completion of the try-body yields process
exit code 0 (success or intentional skip) and nothing on stderr, while an
exception yields exit code 1 and the error line on stderr; exit code 1
happens exactly on an exception and exit code 0 exactly on
completion. -/
theorem top_level_exception_handling :
    (∀ b : Except (List Char) SyncVersion.Outcome,
      ((SyncVersion.run b).1 = 0 ↔ ∃ o, b = .ok o) ∧
      ((SyncVersion.run b).1 = 1 ↔ ∃ e, b = .error e)) ∧
    (∀ e : List Char, SyncVersion.run (.error e) =
      (1, some ("[ERROR] Error syncing version: ".data ++ e))) ∧
    (∀ b : Except (List Char) CreateVersionTag.Outcome,
      ((CreateVersionTag.run b).1 = 0 ↔ ∃ o, b = .ok o) ∧
      ((CreateVersionTag.run b).1 = 1 ↔ ∃ e, b = .error e)) ∧
    (∀ e : List Char, CreateVersionTag.run (.error e) =
      (1, some ("[ERROR] Error creating tag: ".data ++ e))) := by
  refine ⟨?_, fun e => rfl, ?_, fun e => rfl⟩
  · intro b
    cases b with
    | ok o =>
      constructor
      · simp [SyncVersion.run, SyncVersion.returnCode]
      · simp [SyncVersion.run, SyncVersion.returnCode]
    | error e =>
      constructor
      · simp [SyncVersion.run]
      · simp [SyncVersion.run]
  · intro b
    cases b with
    | ok o =>
      constructor
      · simp [CreateVersionTag.run, CreateVersionTag.returnCode]
      · simp [CreateVersionTag.run, CreateVersionTag.returnCode]
    | error e =>
      constructor
      · simp [CreateVersionTag.run]
      · simp [CreateVersionTag.run]

/-- Witness for claim C7: a raised exception exits with code 1. -/
theorem top_level_exception_handling_witness :
    (SyncVersion.run (.error "boom".data)).1 = 1 :=
  ((top_level_exception_handling.1 (.error "boom".data)).2).mpr ⟨_, rfl⟩

end PvpTemplate
